import Mathlib

set_option maxRecDepth 100000

/-!
Shallow embedding of the clipboard-history core of `ClipBoard-For-MacOS`
(files `clipboard_storage.py` and `clipboard_manager_gui.py`), together
with theorems settling the frozen claims about it.

Strings of the Python program are modelled as `List Char` (Python strings
are sequences of Unicode code points); machine-level details that matter
(UTF-8 byte sizes, the MD5 digest used for `content_hash`, the IEEE-754
double product `max_length * 0.7`, SQLite `LIKE` matching and the
`UNIQUE` constraint on `content_hash`) are embedded exactly.
-/

/-- The Unicode whitespace set recognised by Python's `str.strip()` /
truthiness test `not content.strip()`. -/
def pySpace (c : Char) : Bool :=
  c = ' ' || c = '\t' || c = '\n' || c = '\r' ||
  c = Char.ofNat 0x0b || c = Char.ofNat 0x0c ||
  c = Char.ofNat 0x1c || c = Char.ofNat 0x1d ||
  c = Char.ofNat 0x1e || c = Char.ofNat 0x1f ||
  c = Char.ofNat 0x85 || c = Char.ofNat 0xa0 ||
  c = Char.ofNat 0x1680 ||
  (Char.ofNat 0x2000 ≤ c && c ≤ Char.ofNat 0x200a) ||
  c = Char.ofNat 0x2028 || c = Char.ofNat 0x2029 ||
  c = Char.ofNat 0x202f || c = Char.ofNat 0x205f ||
  c = Char.ofNat 0x3000

/-- Models the Python guard `not content or not content.strip()`:
true exactly when the string is empty or consists of whitespace only. -/
def pyFalsyOrWs (s : List Char) : Bool :=
  s.all pySpace

/-- UTF-8 encoding of one Unicode scalar value, as byte values
(models Python's `str.encode('utf-8')` per character). -/
def utf8Char (c : Char) : List Nat :=
  let v := c.toNat
  if v < 0x80 then [v]
  else if v < 0x800 then [0xc0 + v / 64, 0x80 + v % 64]
  else if v < 0x10000 then
    [0xe0 + v / 4096, 0x80 + v / 64 % 64, 0x80 + v % 64]
  else
    [0xf0 + v / 262144, 0x80 + v / 4096 % 64, 0x80 + v / 64 % 64, 0x80 + v % 64]

/-- UTF-8 encoding of a whole string (models `content.encode('utf-8')`);
`(utf8Encode s).length` is Python's `len(content.encode('utf-8'))`. -/
def utf8Encode (s : List Char) : List Nat :=
  s.foldr (fun c acc => utf8Char c ++ acc) []

/-- Models Python's `preview.rfind(' ')`: index of the last space
character, `-1` if there is none. -/
def pyRfindSpace : List Char → Int
  | [] => -1
  | c :: rest =>
    let r := pyRfindSpace rest
    if r ≥ 0 then r + 1 else if c = ' ' then 0 else -1

/-- The line-boundary characters recognised by Python's `str.splitlines()`. -/
def pyLineBreak (c : Char) : Bool :=
  c = '\n' || c = '\r' || c = Char.ofNat 0x0b || c = Char.ofNat 0x0c ||
  c = Char.ofNat 0x1c || c = Char.ofNat 0x1d || c = Char.ofNat 0x1e ||
  c = Char.ofNat 0x85 || c = Char.ofNat 0x2028 || c = Char.ofNat 0x2029

/-- Models Python's `str.splitlines()` (pending line accumulated in `cur`,
in reverse): `"\r\n"` counts as a single break, and a trailing break does
not contribute an extra empty line. -/
def pySplitlinesAux (cur : List Char) : List Char → List (List Char)
  | [] => if cur.isEmpty then [] else [cur.reverse]
  | '\r' :: '\n' :: rest => cur.reverse :: pySplitlinesAux [] rest
  | c :: rest =>
    if pyLineBreak c then cur.reverse :: pySplitlinesAux [] rest
    else pySplitlinesAux (c :: cur) rest

/-- Models Python's `content.splitlines()`. -/
def pySplitlines (s : List Char) : List (List Char) :=
  pySplitlinesAux [] s

/-- Floor of the base-2 logarithm, by structural recursion on a fuel
bound (kernel-evaluable, unlike `Nat.log2`); agrees with `Nat.log2`
whenever `n ≤ fuel` (see `natLog2_eq_log2`). -/
def natLog2Go : Nat → Nat → Nat
  | 0, _ => 0
  | fuel + 1, n => if n ≤ 1 then 0 else natLog2Go fuel (n / 2) + 1

/-- Floor of the base-2 logarithm. -/
def natLog2 (n : Nat) : Nat :=
  natLog2Go n n

/-- The IEEE-754 double-precision value of the Python expression
`max_length * 0.7`, represented exactly as a numerator over the fixed
denominator `2 ^ 53`.  `0.7` is the double `6305039478318694 * 2 ^ (-53)`;
the product with the integer `ml` (exact for `ml < 2 ^ 53`) is rounded
to 53 significant bits with round-to-nearest, ties-to-even.  Checked
against CPython's float arithmetic on all `ml < 300000` and random
53-bit values. -/
def pyMulPoint7Num (ml : Nat) : Nat :=
  let n := ml * 6305039478318694
  if n < 2 ^ 53 then n
  else
    let s := natLog2 n + 1 - 53
    let q := n / 2 ^ s
    let r := n % 2 ^ s
    let q2 := if 2 * r > 2 ^ s ∨ (2 * r = 2 ^ s ∧ q % 2 = 1) then q + 1 else q
    q2 * 2 ^ s

/-- The Python float comparison `last_space > max_length * 0.7`, exactly:
both sides scaled by `2 ^ 53` (Python compares the int `last_space` with
the float mathematically exactly). -/
def pyGtMulPoint7 (lastSpace : Int) (ml : Nat) : Prop :=
  lastSpace * 2 ^ 53 > (pyMulPoint7Num ml : Int)

instance (lastSpace : Int) (ml : Nat) : Decidable (pyGtMulPoint7 lastSpace ml) :=
  inferInstanceAs (Decidable (_ > _))

/-- Embeds `ClipboardStorage._create_preview(content, max_length)`
(`clipboard_storage.py` lines 284-296).  The float comparison
`last_space > max_length * 0.7` is modelled exactly by `pyGtMulPoint7`. -/
def createPreview (content : List Char) (maxLength : Nat) : List Char :=
  if content.length ≤ maxLength then content
  else
    let preview := content.take maxLength
    let lastSpace := pyRfindSpace preview
    let preview :=
      if pyGtMulPoint7 lastSpace maxLength then preview.take lastSpace.toNat
      else preview
    preview ++ ['.', '.', '.']

/-- Embeds `ClipboardStorage._detect_content_type(content)`
(`clipboard_storage.py` lines 298-307). -/
def detectContentType (content : List Char) : List Char :=
  if ("http://".toList).isPrefixOf content || ("https://".toList).isPrefixOf content then
    "url".toList
  else if ("file://".toList).isPrefixOf content then
    "file".toList
  else if (pySplitlines content).length > 1 then
    "multiline".toList
  else
    "text".toList

/-! ### MD5 (RFC 1321), exactly as `hashlib.md5(...).hexdigest()` uses it -/

/-- The 64 MD5 round constants `K[i] = floor(abs(sin(i+1)) * 2^32)`. -/
def md5K : List Nat :=
  [0xd76aa478, 0xe8c7b756, 0x242070db, 0xc1bdceee,
   0xf57c0faf, 0x4787c62a, 0xa8304613, 0xfd469501,
   0x698098d8, 0x8b44f7af, 0xffff5bb1, 0x895cd7be,
   0x6b901122, 0xfd987193, 0xa679438e, 0x49b40821,
   0xf61e2562, 0xc040b340, 0x265e5a51, 0xe9b6c7aa,
   0xd62f105d, 0x02441453, 0xd8a1e681, 0xe7d3fbc8,
   0x21e1cde6, 0xc33707d6, 0xf4d50d87, 0x455a14ed,
   0xa9e3e905, 0xfcefa3f8, 0x676f02d9, 0x8d2a4c8a,
   0xfffa3942, 0x8771f681, 0x6d9d6122, 0xfde5380c,
   0xa4beea44, 0x4bdecfa9, 0xf6bb4b60, 0xbebfbc70,
   0x289b7ec6, 0xeaa127fa, 0xd4ef3085, 0x04881d05,
   0xd9d4d039, 0xe6db99e5, 0x1fa27cf8, 0xc4ac5665,
   0xf4292244, 0x432aff97, 0xab9423a7, 0xfc93a039,
   0x655b59c3, 0x8f0ccc92, 0xffeff47d, 0x85845dd1,
   0x6fa87e4f, 0xfe2ce6e0, 0xa3014314, 0x4e0811a1,
   0xf7537e82, 0xbd3af235, 0x2ad7d2bb, 0xeb86d391]

/-- The 64 MD5 per-round left-rotation amounts. -/
def md5S : List Nat :=
  [7, 12, 17, 22, 7, 12, 17, 22, 7, 12, 17, 22, 7, 12, 17, 22,
   5, 9, 14, 20, 5, 9, 14, 20, 5, 9, 14, 20, 5, 9, 14, 20,
   4, 11, 16, 23, 4, 11, 16, 23, 4, 11, 16, 23, 4, 11, 16, 23,
   6, 10, 15, 21, 6, 10, 15, 21, 6, 10, 15, 21, 6, 10, 15, 21]

/-- 32-bit left rotation. -/
def rotl32 (x s : Nat) : Nat :=
  ((x <<< s) ||| (x >>> (32 - s))) % 4294967296

/-- The MD5 nonlinear function for round `i` on words `b c d`. -/
def md5F (i b c d : Nat) : Nat :=
  if i < 16 then (b &&& c) ||| ((b ^^^ 0xffffffff) &&& d)
  else if i < 32 then (d &&& b) ||| ((d ^^^ 0xffffffff) &&& c)
  else if i < 48 then b ^^^ c ^^^ d
  else c ^^^ (b ||| (d ^^^ 0xffffffff))

/-- The MD5 message-word index for round `i`. -/
def md5G (i : Nat) : Nat :=
  if i < 16 then i
  else if i < 32 then (5 * i + 1) % 16
  else if i < 48 then (3 * i + 5) % 16
  else (7 * i) % 16

/-- One MD5 round on the state `(a, b, c, d)` with message words `M`. -/
def md5Round (M : List Nat) (st : Nat × Nat × Nat × Nat) (i : Nat) :
    Nat × Nat × Nat × Nat :=
  let a := st.1
  let b := st.2.1
  let c := st.2.2.1
  let d := st.2.2.2
  let f := (md5F i b c d + a + md5K.getD i 0 + M.getD (md5G i) 0) % 4294967296
  (d, (b + rotl32 f (md5S.getD i 0)) % 4294967296, b, c)

/-- Decode a 64-byte block into sixteen little-endian 32-bit words. -/
def md5Words (block : List Nat) : List Nat :=
  (List.range 16).map fun j =>
    block.getD (4 * j) 0 + 256 * block.getD (4 * j + 1) 0 +
    65536 * block.getD (4 * j + 2) 0 + 16777216 * block.getD (4 * j + 3) 0

/-- Process one 64-byte block, updating the running MD5 state. -/
def md5Block (st : Nat × Nat × Nat × Nat) (block : List Nat) :
    Nat × Nat × Nat × Nat :=
  let M := md5Words block
  let r := (List.range 64).foldl (md5Round M) st
  ((st.1 + r.1) % 4294967296, (st.2.1 + r.2.1) % 4294967296,
   (st.2.2.1 + r.2.2.1) % 4294967296, (st.2.2.2 + r.2.2.2) % 4294967296)

/-- MD5 padding: append `0x80`, zero-fill to 56 mod 64 bytes, then the
original bit length as eight little-endian bytes. -/
def md5Pad (msg : List Nat) : List Nat :=
  let zeros := (56 + 64 - (msg.length + 1) % 64) % 64
  let bitLen := (8 * msg.length) % (2 ^ 64)
  msg ++ [0x80] ++ List.replicate zeros 0 ++
    (List.range 8).map fun i => bitLen >>> (8 * i) % 256

/-- Split a byte list into 64-byte chunks (structural recursion on a fuel
bound so that the kernel can evaluate it). -/
def chunks64Go : Nat → List Nat → List (List Nat)
  | 0, _ => []
  | _, [] => []
  | fuel + 1, l => l.take 64 :: chunks64Go fuel (l.drop 64)

/-- Split a byte list into 64-byte chunks. -/
def chunks64 (l : List Nat) : List (List Nat) :=
  chunks64Go l.length l

/-- Lowercase hexadecimal digit. -/
def hexDigit (n : Nat) : Char :=
  if n < 10 then Char.ofNat (48 + n) else Char.ofNat (87 + n)

/-- Two lowercase hex characters for one byte. -/
def byteHex (b : Nat) : List Char :=
  [hexDigit (b / 16 % 16), hexDigit (b % 16)]

/-- Hex rendering of a 32-bit word, least-significant byte first. -/
def wordLEHex (w : Nat) : List Char :=
  byteHex (w % 256) ++ byteHex (w >>> 8 % 256) ++
  byteHex (w >>> 16 % 256) ++ byteHex (w >>> 24 % 256)

/-- MD5 hex digest of a byte sequence (models `hashlib.md5(bs).hexdigest()`). -/
def md5HexBytes (msg : List Nat) : List Char :=
  let st := (chunks64 (md5Pad msg)).foldl md5Block
    (0x67452301, 0xefcdab89, 0x98badcfe, 0x10325476)
  wordLEHex st.1 ++ wordLEHex st.2.1 ++ wordLEHex st.2.2.1 ++ wordLEHex st.2.2.2

/-- Models `hashlib.md5(content.encode('utf-8')).hexdigest()`. -/
def md5HexOf (content : List Char) : List Char :=
  md5HexBytes (utf8Encode content)

/-! ### The history store (`ClipboardStorage`) -/

/-- One row of the `clipboard_entries` table (`clipboard_storage.py`
lines 28-38). -/
structure Entry where
  id : Nat
  content : List Char
  content_hash : List Char
  preview : List Char
  timestamp : Nat
  size_bytes : Nat
  content_type : List Char
  deriving DecidableEq

/-- The visible (committed) state of the SQLite database: the rows of
`clipboard_entries` in insertion order, plus the `AUTOINCREMENT`
counter (ids are never reused within a store's lifetime). -/
structure StoreState where
  rows : List Entry
  nextId : Nat
  deriving DecidableEq

/-- The state created by `init_database` on a fresh database file:
no rows, `AUTOINCREMENT` ids starting at 1. -/
def emptyStore : StoreState :=
  { rows := [], nextId := 1 }

/-- Embeds `ClipboardStorage.add_clipboard_entry(content)`
(`clipboard_storage.py` lines 48-82).  Timestamps (`CURRENT_TIMESTAMP`)
are supplied as the explicit parameter `now`.  `find?` models the
`SELECT id FROM clipboard_entries WHERE content_hash = ?` lookup with
`fetchone()`; on a hit only that row's timestamp is set to `now`,
otherwise a new row is inserted with the next `AUTOINCREMENT` id. -/
def add_clipboard_entry (now : Nat) (content : List Char) (s : StoreState) :
    Bool × StoreState :=
  if pyFalsyOrWs content then (false, s)
  else
    let h := md5HexOf content
    match s.rows.find? (fun r => r.content_hash = h) with
    | some r0 =>
      (true, { s with rows := s.rows.map fun r =>
        if r.id = r0.id then { r with timestamp := now } else r })
    | none =>
      (true,
       { rows := s.rows ++
           [{ id := s.nextId, content := content, content_hash := h,
              preview := createPreview content 50, timestamp := now,
              size_bytes := (utf8Encode content).length,
              content_type := detectContentType content }],
         nextId := s.nextId + 1 })

/-- Stable insertion of an entry into a list already ordered by
timestamp descending: an equal timestamp goes after earlier rows, so
ties keep the underlying scan order. -/
def insertTsDesc (r : Entry) : List Entry → List Entry
  | [] => [r]
  | x :: xs => if r.timestamp > x.timestamp then r :: x :: xs
               else x :: insertTsDesc r xs

/-- Models SQL `ORDER BY timestamp DESC` as a stable sort of the rows.
SQLite leaves the relative order of equal timestamps unspecified; the
embedding fixes it, uniformly for every query, as the row scan order. -/
def sortTsDesc : List Entry → List Entry
  | [] => []
  | x :: xs => insertTsDesc x (sortTsDesc xs)

/-- Embeds `ClipboardStorage.get_all_entries(limit)`
(`clipboard_storage.py` lines 84-114): all rows, most recent first,
capped by `LIMIT`. -/
def get_all_entries (limit : Nat) (s : StoreState) : List Entry :=
  (sortTsDesc s.rows).take limit

/-- ASCII-only lowercasing, the case folding SQLite's default `LIKE`
applies. -/
def asciiLower (c : Char) : Char :=
  if 'A' ≤ c ∧ c ≤ 'Z' then Char.ofNat (c.toNat + 32) else c

/-- SQLite `LIKE` pattern matching against text `t`, with explicit fuel
so that the recursion is structural (hence kernel-evaluable): `%`
matches any sequence, `_` any single character, and ordinary characters
compare ASCII-case-insensitively (`case_sensitive_like` is off by
default).  Any `fuel` exceeding `ps.length + t.length` gives the match
semantics. -/
def likeMatchGo : Nat → List Char → List Char → Bool
  | 0, _, _ => false
  | fuel + 1, ps, t =>
    match ps, t with
    | [], rest => rest.isEmpty
    | p :: ps1, rest =>
      if p = '%' then
        likeMatchGo fuel ps1 rest ||
          (match rest with
           | [] => false
           | _ :: ts => likeMatchGo fuel (p :: ps1) ts)
      else
        match rest with
        | [] => false
        | c :: ts =>
          if p = '_' then likeMatchGo fuel ps1 ts
          else asciiLower p = asciiLower c && likeMatchGo fuel ps1 ts

/-- SQLite `LIKE`: does pattern `ps` match the whole text `t`? -/
def likeMatch (ps t : List Char) : Bool :=
  likeMatchGo (ps.length + t.length + 1) ps t

/-- The `WHERE content LIKE '%q%' OR preview LIKE '%q%'` filter of
`search_entries`. -/
def likeCond (q : List Char) (r : Entry) : Bool :=
  likeMatch ('%' :: (q ++ ['%'])) r.content ||
    likeMatch ('%' :: (q ++ ['%'])) r.preview

/-- Embeds `ClipboardStorage.search_entries(query, limit)`
(`clipboard_storage.py` lines 116-150).  An empty or whitespace-only
query falls back to `get_all_entries(limit)`; otherwise rows matching
the SQL pattern `'%' + query + '%'` on `content` or `preview` are
returned newest first, capped by `LIMIT`. -/
def search_entries (q : List Char) (limit : Nat) (s : StoreState) : List Entry :=
  if pyFalsyOrWs q then get_all_entries limit s
  else ((sortTsDesc s.rows).filter (likeCond q)).take limit

/-- Embeds `ClipboardStorage.update_entry_content(entry_id, new_content)`
(`clipboard_storage.py` lines 152-188).  The row is first fetched by id;
then the `UPDATE` rewrites `content`, `content_hash`, `preview`,
`size_bytes` and `content_type` in place (`id` and `timestamp` are not
in its `SET` list).  Because the schema declares `content_hash TEXT
UNIQUE`, an `UPDATE` that would duplicate another row's hash raises
`sqlite3.IntegrityError`; the `except` clause catches it and the
function returns `False` with the transaction never committed, so the
visible state is unchanged. -/
def update_entry_content (entry_id : Nat) (new_content : List Char)
    (s : StoreState) : Bool × StoreState :=
  if pyFalsyOrWs new_content then (false, s)
  else
    match s.rows.find? (fun r => r.id = entry_id) with
    | none => (false, s)
    | some _ =>
      let h := md5HexOf new_content
      if s.rows.any (fun r => r.id ≠ entry_id && r.content_hash = h) then
        (false, s)
      else
        (true, { s with rows := s.rows.map fun r =>
          if r.id = entry_id then
            { r with content := new_content, content_hash := h,
                     preview := createPreview new_content 50,
                     size_bytes := (utf8Encode new_content).length,
                     content_type := detectContentType new_content }
          else r })

/-- Embeds `ClipboardStorage.get_entry_by_id(entry_id)`
(`clipboard_storage.py` lines 190-218). -/
def get_entry_by_id (entry_id : Nat) (s : StoreState) : Option Entry :=
  s.rows.find? (fun r => r.id = entry_id)

/-- Embeds `ClipboardStorage.delete_entry(entry_id)`
(`clipboard_storage.py` lines 220-234): `DELETE ... WHERE id = ?`
succeeds whether or not a row matched. -/
def delete_entry (entry_id : Nat) (s : StoreState) : Bool × StoreState :=
  (true, { s with rows := s.rows.filter fun r => r.id ≠ entry_id })

/-- Embeds `ClipboardStorage.clear_all_entries()`
(`clipboard_storage.py` lines 236-250).  `DELETE FROM clipboard_entries`
removes every row; the `AUTOINCREMENT` sequence is not reset. -/
def clear_all_entries (s : StoreState) : Bool × StoreState :=
  (true, { s with rows := [] })

/-- Embeds `ClipboardStorage.get_total_entries()`
(`clipboard_storage.py` lines 252-266): `SELECT COUNT(*)`. -/
def get_total_entries (s : StoreState) : Nat :=
  s.rows.length

/-- Embeds `ClipboardStorage.get_storage_size_mb()`
(`clipboard_storage.py` lines 268-282): `SELECT SUM(size_bytes)` (`NULL`
coalesced to 0 by `or 0`) divided by `1024 * 1024`. -/
def get_storage_size_mb (s : StoreState) : ℚ :=
  ((s.rows.map Entry.size_bytes).sum : ℚ) / (1024 * 1024)

/-! ### Failure injection for the store operations

Every public method of `ClipboardStorage` wraps its database work in
`try/except Exception`.  The `_io` variants below re-run each method
with an injected backing-store failure: `failAt = some k` means the
`k`-th database call inside the `try` block (connect, the executed
statements, commit — in source order) raises.  SQLite's transaction
semantics make every statement executed before a failed commit
invisible to later connections, so at each failure point the function
returns the `except` branch's failure value and the committed state is
the state on entry.  `failAt = none`, or an index past the calls the
executed path performs, means no failure occurs. -/

/-- Variant of `add_clipboard_entry` with an injected failure: calls are
0 = `connect`, 1 = the dedup `SELECT`, 2 = the `UPDATE`/`INSERT`,
3 = `commit`. -/
def add_clipboard_entry_io (failAt : Option Nat) (now : Nat)
    (content : List Char) (s : StoreState) : Bool × StoreState :=
  if pyFalsyOrWs content then (false, s)
  else if failAt = some 0 then (false, s)
  else if failAt = some 1 then (false, s)
  else
    let staged := (add_clipboard_entry now content s).2
    if failAt = some 2 then (false, s)
    else if failAt = some 3 then (false, s)
    else (true, staged)

/-- Variant of `update_entry_content` with an injected failure: calls are
0 = `connect`, 1 = the `SELECT` by id, 2 = the `UPDATE` (which also
raises `IntegrityError` on a `content_hash` conflict), 3 = `commit`. -/
def update_entry_content_io (failAt : Option Nat) (entry_id : Nat)
    (new_content : List Char) (s : StoreState) : Bool × StoreState :=
  if pyFalsyOrWs new_content then (false, s)
  else if failAt = some 0 then (false, s)
  else if failAt = some 1 then (false, s)
  else
    match s.rows.find? (fun r => r.id = entry_id) with
    | none => (false, s)
    | some _ =>
      if failAt = some 2 then (false, s)
      else
        let staged := (update_entry_content entry_id new_content s).2
        if (update_entry_content entry_id new_content s).1 = false then (false, s)
        else if failAt = some 3 then (false, s)
        else (true, staged)

/-- Variant of `delete_entry` with an injected failure: calls are 0 = `connect`,
1 = the `DELETE`, 2 = `commit`. -/
def delete_entry_io (failAt : Option Nat) (entry_id : Nat) (s : StoreState) :
    Bool × StoreState :=
  if failAt = some 0 then (false, s)
  else if failAt = some 1 then (false, s)
  else if failAt = some 2 then (false, s)
  else delete_entry entry_id s

/-- Variant of `clear_all_entries` with an injected failure: calls are 0 = `connect`,
1 = the `DELETE`, 2 = `commit`. -/
def clear_all_entries_io (failAt : Option Nat) (s : StoreState) :
    Bool × StoreState :=
  if failAt = some 0 then (false, s)
  else if failAt = some 1 then (false, s)
  else if failAt = some 2 then (false, s)
  else clear_all_entries s

/-- Variant of `get_all_entries` with an injected failure: calls are 0 = `connect`,
1 = the `SELECT`; the `except` branch returns `[]`. -/
def get_all_entries_io (failAt : Option Nat) (limit : Nat) (s : StoreState) :
    List Entry :=
  if failAt = some 0 then []
  else if failAt = some 1 then []
  else get_all_entries limit s

/-- Variant of `search_entries` with an injected failure.  An empty or whitespace
query delegates to `get_all_entries` (outside `search_entries`' own
`try`); otherwise calls are 0 = `connect`, 1 = the `SELECT`, and the
`except` branch returns `[]`. -/
def search_entries_io (failAt : Option Nat) (q : List Char) (limit : Nat)
    (s : StoreState) : List Entry :=
  if pyFalsyOrWs q then get_all_entries_io failAt limit s
  else if failAt = some 0 then []
  else if failAt = some 1 then []
  else search_entries q limit s

/-- Variant of `get_entry_by_id` with an injected failure: calls are 0 = `connect`,
1 = the `SELECT`; the `except` branch returns `None`. -/
def get_entry_by_id_io (failAt : Option Nat) (entry_id : Nat) (s : StoreState) :
    Option Entry :=
  if failAt = some 0 then none
  else if failAt = some 1 then none
  else get_entry_by_id entry_id s

/-- Variant of `get_total_entries` with an injected failure: calls are 0 = `connect`,
1 = the `SELECT COUNT`; the `except` branch returns `0`. -/
def get_total_entries_io (failAt : Option Nat) (s : StoreState) : Nat :=
  if failAt = some 0 then 0
  else if failAt = some 1 then 0
  else get_total_entries s

/-- Variant of `get_storage_size_mb` with an injected failure: calls are
0 = `connect`, 1 = the `SELECT SUM`; the `except` branch returns `0.0`. -/
def get_storage_size_mb_io (failAt : Option Nat) (s : StoreState) : ℚ :=
  if failAt = some 0 then 0
  else if failAt = some 1 then 0
  else get_storage_size_mb s

/-! ### The clipboard monitor (`ClipboardMonitorThread`) -/

/-- The monitor's mutable state across poll iterations
(`clipboard_manager_gui.py` lines 94-118): the last observed clipboard
value.  `run` seeds it with the baseline `pyperclip.paste()` before the
loop. -/
structure MonState where
  last_content : List Char
  deriving DecidableEq

/-- One iteration of the `while self.running` loop
(`clipboard_manager_gui.py` lines 105-118).  The poll is `some v` when
`pyperclip.paste()` returns `v` and `none` when it raises (the `except`
branch logs, sleeps, and leaves the state alone).  On `v` differing from
`last_content` the state is always updated, and an event carrying `v` is
emitted only when `v` is non-empty and not whitespace-only. -/
def monitorStep (poll : Option (List Char)) (m : MonState) :
    MonState × Option (List Char) :=
  match poll with
  | none => (m, none)
  | some v =>
    if v ≠ m.last_content then
      ({ last_content := v }, if pyFalsyOrWs v then none else some v)
    else (m, none)

/-- A whole run of the monitor loop: the baseline read of `run`
(`self.last_content = pyperclip.paste()`, not emitted) followed by one
`monitorStep` per poll; returns the final state and the emitted events
in order. -/
def monitorRun (baseline : List Char) (polls : List (Option (List Char))) :
    MonState × List (List Char) :=
  polls.foldl
    (fun acc p =>
      let r := monitorStep p acc.1
      (r.1, acc.2 ++ r.2.toList))
    ({ last_content := baseline }, [])

/-! ### Store invariants and reachability -/

/-- No two live rows share a `content_hash` (the `UNIQUE` constraint of
the schema). -/
def HashUnique (s : StoreState) : Prop :=
  s.rows.Pairwise fun a b => a.content_hash ≠ b.content_hash

/-- The full store invariant: row ids are below the `AUTOINCREMENT`
counter, pairwise distinct (`PRIMARY KEY`), and `content_hash` is
pairwise distinct (`UNIQUE`). -/
def StoreInv (s : StoreState) : Prop :=
  (∀ r ∈ s.rows, r.id < s.nextId) ∧
    (s.rows.Pairwise fun a b => a.id ≠ b.id) ∧ HashUnique s

/-- States reachable from a fresh database by the store's mutating
operations. -/
inductive Reachable : StoreState → Prop
  | init : Reachable emptyStore
  | add (now : Nat) (content : List Char) {s : StoreState} :
      Reachable s → Reachable (add_clipboard_entry now content s).2
  | update (entry_id : Nat) (new_content : List Char) {s : StoreState} :
      Reachable s → Reachable (update_entry_content entry_id new_content s).2
  | del (entry_id : Nat) {s : StoreState} :
      Reachable s → Reachable (delete_entry entry_id s).2
  | clear {s : StoreState} :
      Reachable s → Reachable (clear_all_entries s).2

/-! ### Definitions taken from the specification's words

These are deliberately written from the spec, not from the code; they
exist only to be compared with the code-derived definitions above. -/

/-- Modelled from the spec: the preview function as §4.1 words it, with
"that space's position exceeds 70% of `max_length`" read as the exact
rational inequality `position > 7 * max_length / 10`.  The code instead
compares against the floating-point product `max_length * 0.7`, which
for some `max_length` lies just below the exact rational. -/
def specCreatePreview (content : List Char) (maxLength : Nat) : List Char :=
  if content.length ≤ maxLength then content
  else
    let preview := content.take maxLength
    let lastSpace := pyRfindSpace preview
    let preview :=
      if 10 * lastSpace > 7 * (maxLength : Int) then preview.take lastSpace.toNat
      else preview
    preview ++ ['.', '.', '.']

/-- Case-preserving (exact, case-sensitive) substring containment:
does `needle` occur contiguously inside `hay`? -/
def containsSub (needle hay : List Char) : Bool :=
  match hay with
  | [] => needle.isEmpty
  | c :: t => (needle.isPrefixOf (c :: t)) || containsSub needle t

/-- Modelled from the spec: "entries whose `content` or `preview`
contains `query` as a case-preserving substring". -/
def specSearchMatch (q : List Char) (r : Entry) : Bool :=
  containsSub q r.content || containsSub q r.preview

/-- A query with no SQL `LIKE` wildcard characters. -/
def noWildcard (q : List Char) : Bool :=
  q.all fun c => !(c = '%') && !(c = '_')

/-- ASCII-case-insensitive substring containment of the query in an
entry's `content` or `preview`: the semantics SQLite's default `LIKE`
gives the pattern `'%' + query + '%'` for wildcard-free queries (proved
in `likeMatch_pattern_contains`). -/
def lowerInfixCond (q : List Char) (r : Entry) : Bool :=
  containsSub (q.map asciiLower) (r.content.map asciiLower) ||
    containsSub (q.map asciiLower) (r.preview.map asciiLower)

/-! ### Concrete demonstration states -/

/-- The store after `add("a")` at time 1 on a fresh database. -/
def demoA : StoreState :=
  (add_clipboard_entry 1 ("a".toList) emptyStore).2

/-- The store after `add("a")` at time 1 and `add("b")` at time 2. -/
def demoAB : StoreState :=
  (add_clipboard_entry 2 ("b".toList) demoA).2

/-- The store holding the single entry `"hello"`. -/
def demoHello : StoreState :=
  (add_clipboard_entry 0 ("hello".toList) emptyStore).2

/-! ### Basic sanity checks (concrete evaluations of the embedding) -/

example : md5HexOf ([]) = "d41d8cd98f00b204e9800998ecf8427e".toList := by decide
example : md5HexOf ("a".toList) = "0cc175b9c0f1b6a831c399e269772661".toList := by decide
example : md5HexOf ("abc".toList) = "900150983cd24fb0d6963f7d28e17f72".toList := by decide
example : md5HexOf ("hello".toList) = "5d41402abc4b2a76b9719d911017c592".toList := by decide

theorem storeInv_empty : StoreInv emptyStore := by
  refine ⟨?_, ?_, ?_⟩ <;> simp [emptyStore, HashUnique]

theorem touch_keeps_id (now i : Nat) (r : Entry) :
    (if r.id = i then { r with timestamp := now } else r).id = r.id := by
  split <;> rfl

theorem touch_keeps_hash (now i : Nat) (r : Entry) :
    (if r.id = i then { r with timestamp := now } else r).content_hash =
      r.content_hash := by
  split <;> rfl

theorem storeInv_add (now : Nat) (content : List Char) (s : StoreState)
    (h : StoreInv s) : StoreInv (add_clipboard_entry now content s).2 := by
  obtain ⟨hlt, hid, hhash⟩ := h
  unfold add_clipboard_entry
  split
  · exact ⟨hlt, hid, hhash⟩
  · cases hf : s.rows.find? (fun r => r.content_hash = md5HexOf content) with
    | some r0 =>
      simp only [hf]
      refine ⟨?_, ?_, ?_⟩
      · intro r hr
        obtain ⟨r1, hr1, rfl⟩ := List.mem_map.mp hr
        rw [touch_keeps_id]
        exact hlt r1 hr1
      · rw [List.pairwise_map]
        exact hid.imp fun {a b} hab => by
          rw [touch_keeps_id, touch_keeps_id]; exact hab
      · rw [HashUnique, List.pairwise_map]
        exact hhash.imp fun {a b} hab => by
          rw [touch_keeps_hash, touch_keeps_hash]; exact hab
    | none =>
      simp only [hf]
      have hnone := List.find?_eq_none.mp hf
      refine ⟨?_, ?_, ?_⟩
      · intro r hr
        rcases List.mem_append.mp hr with hr | hr
        · exact Nat.lt_succ_of_lt (hlt r hr)
        · simp only [List.mem_singleton] at hr
          subst hr
          exact Nat.lt_succ_self _
      · rw [List.pairwise_append]
        refine ⟨hid, List.pairwise_singleton _ _, ?_⟩
        intro a ha b hb
        simp only [List.mem_singleton] at hb
        subst hb
        exact Nat.ne_of_lt (hlt a ha)
      · rw [HashUnique, List.pairwise_append]
        refine ⟨hhash, List.pairwise_singleton _ _, ?_⟩
        intro a ha b hb
        simp only [List.mem_singleton] at hb
        subst hb
        have := hnone a ha
        simpa using this

theorem storeInv_update (entry_id : Nat) (new_content : List Char)
    (s : StoreState) (h : StoreInv s) :
    StoreInv (update_entry_content entry_id new_content s).2 := by
  obtain ⟨hlt, hid, hhash⟩ := h
  unfold update_entry_content
  split
  · exact ⟨hlt, hid, hhash⟩
  · cases hf : s.rows.find? (fun r => r.id = entry_id) with
    | none => exact ⟨hlt, hid, hhash⟩
    | some r0 =>
      simp only [hf]
      split
      · exact ⟨hlt, hid, hhash⟩
      · rename_i hany
        have hnoc : ∀ r ∈ s.rows, r.id ≠ entry_id →
            r.content_hash ≠ md5HexOf new_content := by
          intro r hr hne
          have := (List.any_eq_false).mp (Bool.not_eq_true _ ▸ hany) r hr
          simp only [Bool.and_eq_true, decide_eq_true_eq, not_and] at this
          exact this hne
        refine ⟨?_, ?_, ?_⟩
        · intro r hr
          obtain ⟨r1, hr1, rfl⟩ := List.mem_map.mp hr
          split <;> exact hlt r1 hr1
        · rw [List.pairwise_map]
          exact hid.imp fun {a b} hab => by
            split <;> split <;> exact hab
        · rw [HashUnique, List.pairwise_map]
          have hboth := hid.and hhash
          refine hboth.imp_of_mem ?_
          intro a b ha hb hab
          obtain ⟨hidab, hhab⟩ := hab
          by_cases hA : a.id = entry_id <;> by_cases hB : b.id = entry_id
          · exact absurd (hA.trans hB.symm) hidab
          · simp only [if_pos hA, if_neg hB]
            exact fun hcontra => (hnoc b hb hB) hcontra.symm
          · simp only [if_neg hA, if_pos hB]
            exact hnoc a ha hA
          · simp only [if_neg hA, if_neg hB]
            exact hhab

theorem storeInv_delete (entry_id : Nat) (s : StoreState) (h : StoreInv s) :
    StoreInv (delete_entry entry_id s).2 := by
  obtain ⟨hlt, hid, hhash⟩ := h
  refine ⟨?_, ?_, ?_⟩
  · intro r hr
    exact hlt r (List.mem_of_mem_filter hr)
  · exact hid.filter _
  · exact hhash.filter _

theorem storeInv_clear (s : StoreState) (_h : StoreInv s) :
    StoreInv (clear_all_entries s).2 := by
  refine ⟨?_, ?_, ?_⟩ <;> simp [clear_all_entries, HashUnique]

theorem storeInv_reachable {s : StoreState} (h : Reachable s) : StoreInv s := by
  induction h with
  | init => exact storeInv_empty
  | add now content _ ih => exact storeInv_add now content _ ih
  | update entry_id new_content _ ih => exact storeInv_update entry_id new_content _ ih
  | del entry_id _ ih => exact storeInv_delete entry_id _ ih
  | clear _ ih => exact storeInv_clear _ ih

example : pyFalsyOrWs ("  ".toList) = true := by decide
example : pyFalsyOrWs ([]) = true := by decide
example : pyFalsyOrWs ("a b".toList) = false := by decide
example : pyRfindSpace ("ab cd".toList) = 2 := by decide
example : (pySplitlines ("line1\nline2".toList)).length = 2 := by decide
example : (pySplitlines ("line1\n".toList)).length = 1 := by decide
example : detectContentType ("https://x.com".toList) = "url".toList := by decide
example : detectContentType ("file:///a".toList) = "file".toList := by decide
example : detectContentType ("line1\nline2".toList) = "multiline".toList := by decide
example : detectContentType ("hello".toList) = "text".toList := by decide
example : createPreview ("short".toList) 50 = "short".toList := by decide

/-! ### Helper lemmas -/

theorem isPrefixOf_iff {l1 l2 : List Char} :
    (l1.isPrefixOf l2 = true) ↔ l1 <+: l2 :=
  List.isPrefixOf_iff_prefix

theorem length_insertTsDesc (r : Entry) (l : List Entry) :
    (insertTsDesc r l).length = l.length + 1 := by
  induction l with
  | nil => rfl
  | cons x xs ih =>
    simp only [insertTsDesc]
    split
    · simp
    · simp [ih]

theorem length_sortTsDesc (l : List Entry) :
    (sortTsDesc l).length = l.length := by
  induction l with
  | nil => rfl
  | cons x xs ih => simp [sortTsDesc, length_insertTsDesc, ih]

theorem pyRfindSpace_lt_length (l : List Char) :
    pyRfindSpace l < (l.length : Int) := by
  induction l with
  | nil => simp [pyRfindSpace]
  | cons c rest ih =>
    simp only [pyRfindSpace, List.length_cons]
    split
    · push_cast
      omega
    · split <;> (push_cast; omega)

theorem natLog2Go_eq_log2 : ∀ (fuel n : Nat), n ≤ fuel →
    natLog2Go fuel n = Nat.log2 n := by
  intro fuel
  induction fuel with
  | zero =>
    intro n h
    have : n = 0 := by omega
    subst this
    unfold Nat.log2
    rfl
  | succ f ih =>
    intro n h
    rw [natLog2Go]
    by_cases h1 : n ≤ 1
    · rw [if_pos h1]
      unfold Nat.log2
      rw [if_neg (by omega)]
    · rw [if_neg h1, ih (n / 2) (by omega)]
      conv_rhs => rw [Nat.log2]
      rw [if_pos (by omega)]

theorem natLog2_eq_log2 (n : Nat) : natLog2 n = Nat.log2 n :=
  natLog2Go_eq_log2 n n (Nat.le_refl n)

theorem pyGtMulPoint7_pos {ls : Int} {ml : Nat} (h : pyGtMulPoint7 ls ml) :
    0 ≤ ls := by
  rw [pyGtMulPoint7] at h
  by_contra hneg
  push_neg at hneg
  have h1 : ls * 2 ^ 53 ≤ 0 :=
    mul_nonpos_of_nonpos_of_nonneg (le_of_lt hneg) (by positivity)
  have h2 : (0 : Int) ≤ (pyMulPoint7Num ml : Int) := Int.natCast_nonneg _
  omega

/-! ### C5 — `_create_preview` -/

/-- C5 counterexample: the claim reads the truncation condition as "the
last space's position exceeds 70% of max_length".  At `max_length = 90`
the code's float product `90 * 0.7` is `62.99999999999999`, so a space
at position 63 — exactly 70%, not exceeding it — still triggers
word-boundary truncation: the code returns the first 63 characters plus
the marker, while the claim's exact-70% reading (`specCreatePreview`)
keeps all 90 characters. -/
theorem create_preview_counterexample :
    createPreview (List.replicate 63 'y' ++ [' '] ++ List.replicate 27 'z') 90 =
      List.replicate 63 'y' ++ ['.', '.', '.'] ∧
    specCreatePreview (List.replicate 63 'y' ++ [' '] ++ List.replicate 27 'z') 90 =
      (List.replicate 63 'y' ++ [' '] ++ List.replicate 26 'z') ++ ['.', '.', '.'] ∧
    createPreview (List.replicate 63 'y' ++ [' '] ++ List.replicate 27 'z') 90 ≠
      specCreatePreview (List.replicate 63 'y' ++ [' '] ++ List.replicate 27 'z') 90 := by
  exact ⟨by decide, by decide, by decide⟩

/-- C5 (amended): `create_preview` returns `content` unchanged when
`content.length ≤ max_length`; otherwise it takes the first `max_length`
characters, truncates at the last space when that space's position
exceeds the double-precision value of `max_length * 0.7` (for the
default 50 the threshold is exactly 35, i.e. "exceeds 70%"; for some
other lengths, such as 90, the float threshold lies just below 70% so a
space at exactly 70% also triggers), and appends the marker `"..."` in
all truncation cases, so the result length is at most `max_length + 3`
(53 for the default). -/
theorem create_preview_spec (content : List Char) (ml : Nat) :
    (content.length ≤ ml → createPreview content ml = content) ∧
    (ml < content.length →
      (∃ cut : Nat, cut ≤ ml ∧
        createPreview content ml = content.take cut ++ ['.', '.', '.'] ∧
        ((pyGtMulPoint7 (pyRfindSpace (content.take ml)) ml →
            (cut : Int) = pyRfindSpace (content.take ml)) ∧
          (¬ pyGtMulPoint7 (pyRfindSpace (content.take ml)) ml →
            cut = ml))) ∧
      (createPreview content ml).length ≤ ml + 3) := by
  constructor
  · intro h
    simp [createPreview, h]
  · intro h
    have hnle : ¬ content.length ≤ ml := by omega
    have hlen : (content.take ml).length = ml := by
      simp [List.length_take]
      omega
    have hlt : pyRfindSpace (content.take ml) < (ml : Int) := by
      have := pyRfindSpace_lt_length (content.take ml)
      rwa [hlen] at this
    have hmain : createPreview content ml =
        (if pyGtMulPoint7 (pyRfindSpace (content.take ml)) ml then
          (content.take ml).take (pyRfindSpace (content.take ml)).toNat
        else content.take ml) ++ ['.', '.', '.'] := by
      rw [createPreview, if_neg hnle]
    by_cases hcond : pyGtMulPoint7 (pyRfindSpace (content.take ml)) ml
    · have hpos : 0 ≤ pyRfindSpace (content.take ml) := pyGtMulPoint7_pos hcond
      have hcut : (pyRfindSpace (content.take ml)).toNat ≤ ml := by omega
      have htake : (content.take ml).take (pyRfindSpace (content.take ml)).toNat =
          content.take (pyRfindSpace (content.take ml)).toNat := by
        rw [List.take_take]
        congr 1
        omega
      refine ⟨⟨(pyRfindSpace (content.take ml)).toNat, hcut, ?_, ?_, ?_⟩, ?_⟩
      · rw [hmain, if_pos hcond, htake]
      · intro _
        omega
      · intro hc
        exact absurd hcond hc
      · rw [hmain, if_pos hcond, htake]
        simp only [List.length_append, List.length_take, List.length_cons,
          List.length_nil]
        omega
    · refine ⟨⟨ml, le_refl ml, ?_, ?_, ?_⟩, ?_⟩
      · rw [hmain, if_neg hcond]
      · intro hc
        exact absurd hc hcond
      · intro _
        rfl
      · rw [hmain, if_neg hcond]
        simp only [List.length_append, List.length_take, List.length_cons,
          List.length_nil]
        omega

/-- Witness for `create_preview_spec` at concrete inputs: the short
string comes back unchanged, and a 60-character string previews to at
most 53 characters. -/
theorem create_preview_spec_witness :
    createPreview ("short".toList) 50 = "short".toList ∧
    (createPreview (List.replicate 60 'x') 50).length ≤ 53 :=
  ⟨(create_preview_spec ("short".toList) 50).1 (by decide),
   ((create_preview_spec (List.replicate 60 'x') 50).2 (by decide)).2⟩

/-! ### C6 — `_detect_content_type` -/

/-- C6: `detect_content_type` returns `'url'` if content starts with
`http://` or `https://`; otherwise `'file'` if it starts with `file://`;
otherwise `'multiline'` if it contains more than one line (in Python's
`splitlines` sense); otherwise `'text'` — in that priority order, first
match winning — and behaves as the claim's four examples state. -/
theorem detect_content_type_spec (content : List Char) :
    (("http://".toList <+: content ∨ "https://".toList <+: content) →
      detectContentType content = "url".toList) ∧
    (¬ ("http://".toList <+: content ∨ "https://".toList <+: content) →
      ("file://".toList <+: content →
        detectContentType content = "file".toList) ∧
      (¬ "file://".toList <+: content →
        (1 < (pySplitlines content).length →
          detectContentType content = "multiline".toList) ∧
        (¬ 1 < (pySplitlines content).length →
          detectContentType content = "text".toList))) ∧
    detectContentType ("https://x.com".toList) = "url".toList ∧
    detectContentType ("file:///a".toList) = "file".toList ∧
    detectContentType ("line1\nline2".toList) = "multiline".toList ∧
    detectContentType ("hello".toList) = "text".toList := by
  refine ⟨?_, ?_, by decide, by decide, by decide, by decide⟩
  · intro h
    have hb : (("http://".toList).isPrefixOf content ||
        ("https://".toList).isPrefixOf content) = true := by
      rw [Bool.or_eq_true]
      rcases h with h | h
      · exact Or.inl (isPrefixOf_iff.mpr h)
      · exact Or.inr (isPrefixOf_iff.mpr h)
    unfold detectContentType
    rw [if_pos hb]
  · intro h
    rw [not_or] at h
    obtain ⟨h1, h2⟩ := h
    have hnb : ¬ ((("http://".toList).isPrefixOf content ||
        ("https://".toList).isPrefixOf content) = true) := by
      rw [Bool.or_eq_true]
      rintro (hb | hb)
      · exact h1 (isPrefixOf_iff.mp hb)
      · exact h2 (isPrefixOf_iff.mp hb)
    constructor
    · intro h3
      unfold detectContentType
      rw [if_neg hnb, if_pos (isPrefixOf_iff.mpr h3)]
    · intro h3
      have hnf : ¬ ((("file://".toList).isPrefixOf content) = true) :=
        fun hb => h3 (isPrefixOf_iff.mp hb)
      constructor
      · intro h4
        unfold detectContentType
        rw [if_neg hnb, if_neg hnf, if_pos h4]
      · intro h4
        unfold detectContentType
        rw [if_neg hnb, if_neg hnf, if_neg h4]

/-- Witness for `detect_content_type_spec`: the priority branches applied
at concrete inputs. -/
theorem detect_content_type_spec_witness :
    detectContentType ("http://a".toList) = "url".toList ∧
    detectContentType ("file://b".toList) = "file".toList :=
  ⟨(detect_content_type_spec ("http://a".toList)).1 (Or.inl ⟨['a'], rfl⟩),
   ((detect_content_type_spec ("file://b".toList)).2.1
      (by rw [not_or]; exact ⟨by decide, by decide⟩)).1 ⟨['b'], rfl⟩⟩

/-! ### C9 — `delete_entry` on absent ids -/

/-- C9: deleting an id that refers to no live entry returns `True` and
leaves the store (hence `count()`) unchanged; `delete_entry` always
returns `True`, never grows the store, and deleting the same id a second
time is again a success on an unchanged store. -/
theorem delete_entry_spec (entry_id : Nat) (s : StoreState) :
    ((∀ r ∈ s.rows, r.id ≠ entry_id) → delete_entry entry_id s = (true, s)) ∧
    (delete_entry entry_id s).1 = true ∧
    get_total_entries (delete_entry entry_id s).2 ≤ get_total_entries s ∧
    delete_entry entry_id (delete_entry entry_id s).2 =
      (true, (delete_entry entry_id s).2) := by
  refine ⟨?_, rfl, ?_, ?_⟩
  · intro h
    have heq : (s.rows.filter fun r => r.id ≠ entry_id) = s.rows := by
      rw [List.filter_eq_self]
      intro a ha
      simpa using h a ha
    unfold delete_entry
    rw [heq]
  · simpa [delete_entry, get_total_entries] using List.length_filter_le _ s.rows
  · simp [delete_entry, List.filter_filter]

/-- Witness for `delete_entry_spec`: deleting id 1 from the empty store
succeeds and is a no-op. -/
theorem delete_entry_spec_witness :
    delete_entry 1 emptyStore = (true, emptyStore) :=
  (delete_entry_spec 1 emptyStore).1 (by intro r hr; simp [emptyStore] at hr)

/-! ### C7 — monitor emission discipline -/

theorem monitorStep_last (v : List Char) (m : MonState) :
    (monitorStep (some v) m).1.last_content = v := by
  show ((if v ≠ m.last_content then
      ({ last_content := v }, if pyFalsyOrWs v = true then none else some v)
    else (m, none)).1).last_content = v
  split
  · rfl
  · rename_i h2
    rw [not_not] at h2
    exact h2.symm

theorem monitorStep_ne {m : MonState} {w : List Char}
    (hne : w ≠ m.last_content) (hw : pyFalsyOrWs w = false) :
    monitorStep (some w) m = ({ last_content := w }, some w) := by
  show (if w ≠ m.last_content then
      ({ last_content := w }, if pyFalsyOrWs w = true then none else some w)
    else (m, none)) = ({ last_content := w }, some w)
  rw [if_pos hne, if_neg (by simp [hw])]

theorem monitorRun_const_aux (baseline : List Char)
    (polls : List (Option (List Char))) (acc : List (List Char))
    (h : ∀ p ∈ polls, p = some baseline) :
    polls.foldl
      (fun acc p =>
        let r := monitorStep p acc.1
        (r.1, acc.2 ++ r.2.toList))
      ({ last_content := baseline }, acc) =
      ({ last_content := baseline }, acc) := by
  induction polls generalizing acc with
  | nil => rfl
  | cons p ps ih =>
    have hp : p = some baseline := h p (List.mem_cons_self p ps)
    subst hp
    have hstep : monitorStep (some baseline) { last_content := baseline } =
        ({ last_content := baseline }, none) := by
      simp [monitorStep]
    simp only [List.foldl_cons, hstep, Option.toList_none, List.append_nil]
    exact ih acc fun q hq => h q (List.mem_cons_of_mem _ hq)

/-- C7: one monitor iteration never emits when the polled value equals
`last_content` (in particular, while the clipboard still holds the
baseline value read at start, a whole run emits nothing), never emits a
value that is empty or whitespace-only after trimming, and never emits
on a failed read; yet any differing polled value — the empty string
included — always becomes the new `last_content`, so a subsequent
change away from a suppressed value is detected and emitted. -/
theorem monitor_emission_spec (m : MonState) (v w baseline : List Char)
    (polls : List (Option (List Char))) :
    monitorStep (some m.last_content) m = (m, none) ∧
    (pyFalsyOrWs v = true → (monitorStep (some v) m).2 = none) ∧
    (monitorStep (some v) m).1.last_content = v ∧
    monitorStep none m = (m, none) ∧
    ((∀ p ∈ polls, p = some baseline) → (monitorRun baseline polls).2 = []) ∧
    (pyFalsyOrWs w = false → w ≠ v →
      monitorStep (some w) (monitorStep (some v) m).1 =
        ({ last_content := w }, some w)) := by
  refine ⟨?_, ?_, ?_, rfl, ?_, ?_⟩
  · simp [monitorStep]
  · intro hws
    show ((if v ≠ m.last_content then
        ({ last_content := v }, if pyFalsyOrWs v = true then none else some v)
      else (m, none)).2) = none
    split <;> simp_all
  · exact monitorStep_last v m
  · intro h
    exact congrArg Prod.snd (monitorRun_const_aux baseline polls [] h)
  · intro hw hne
    exact monitorStep_ne (by rw [monitorStep_last]; exact hne) hw

/-- Witness for `monitor_emission_spec`: a suppressed transition to the
empty clipboard still updates the state, so the next non-empty value is
emitted. -/
theorem monitor_emission_spec_witness :
    (monitorStep (some ([])) { last_content := "A".toList }).2 = none ∧
    monitorStep (some ("B".toList))
        (monitorStep (some ([])) { last_content := "A".toList }).1 =
      ({ last_content := "B".toList }, some ("B".toList)) ∧
    (monitorRun ("A".toList) [some ("A".toList), some ("A".toList)]).2 = [] :=
  ⟨(monitor_emission_spec { last_content := "A".toList } ([]) ("B".toList)
      ("A".toList) []).2.1 (by decide),
   (monitor_emission_spec { last_content := "A".toList } ([]) ("B".toList)
      ("A".toList) []).2.2.2.2.2 (by decide) (by decide),
   (monitor_emission_spec { last_content := "A".toList } ([]) ("B".toList)
      ("A".toList) [some ("A".toList), some ("A".toList)]).2.2.2.2.1
     (by intro p hp; simp at hp; simp [hp])⟩

/-! ### C10 — frame property of `update_entry_content` -/

theorem update_success_shape (entry_id : Nat) (nc : List Char) (s : StoreState)
    (hsucc : (update_entry_content entry_id nc s).1 = true) :
    (update_entry_content entry_id nc s).2 =
      { s with rows := s.rows.map fun r =>
        if r.id = entry_id then
          { r with content := nc, content_hash := md5HexOf nc,
                   preview := createPreview nc 50,
                   size_bytes := (utf8Encode nc).length,
                   content_type := detectContentType nc }
        else r } := by
  by_cases hws : pyFalsyOrWs nc = true
  · unfold update_entry_content at hsucc
    rw [if_pos hws] at hsucc
    simp at hsucc
  · rcases hq : s.rows.find? (fun r => r.id = entry_id) with _ | r0
    · unfold update_entry_content at hsucc
      rw [if_neg hws, hq] at hsucc
      simp at hsucc
    · by_cases hc : (s.rows.any fun r => r.id ≠ entry_id &&
          r.content_hash = md5HexOf nc) = true
      · unfold update_entry_content at hsucc
        rw [if_neg hws, hq] at hsucc
        simp only [if_pos hc] at hsucc
        simp at hsucc
      · unfold update_entry_content
        rw [if_neg hws, hq]
        simp only [if_neg hc]

/-- C10: a successful `update_entry_content(id, new_content)` keeps
`nextId` and the row count, keeps every row's `id` and `timestamp`,
leaves every row whose id differs from `id` entirely unchanged, and on
the targeted row replaces exactly `content`, `content_hash`, `preview`,
`size_bytes` and `content_type` with the values recomputed from
`new_content`. -/
theorem update_entry_frame (entry_id : Nat) (new_content : List Char)
    (s : StoreState)
    (hsucc : (update_entry_content entry_id new_content s).1 = true) :
    (update_entry_content entry_id new_content s).2.nextId = s.nextId ∧
    (update_entry_content entry_id new_content s).2.rows.length =
      s.rows.length ∧
    ∀ i (hi : i < s.rows.length)
      (hi2 : i < (update_entry_content entry_id new_content s).2.rows.length),
      let r := s.rows.get ⟨i, hi⟩
      let r2 := (update_entry_content entry_id new_content s).2.rows.get ⟨i, hi2⟩
      r2.id = r.id ∧ r2.timestamp = r.timestamp ∧
      (r.id ≠ entry_id → r2 = r) ∧
      (r.id = entry_id →
        r2.content = new_content ∧
        r2.content_hash = md5HexOf new_content ∧
        r2.preview = createPreview new_content 50 ∧
        r2.size_bytes = (utf8Encode new_content).length ∧
        r2.content_type = detectContentType new_content) := by
  have hshape := update_success_shape entry_id new_content s hsucc
  rw [hshape]
  refine ⟨rfl, by simp, ?_⟩
  intro i hi hi2
  have hget : ((s.rows.map fun r =>
      if r.id = entry_id then
        { r with content := new_content, content_hash := md5HexOf new_content,
                 preview := createPreview new_content 50,
                 size_bytes := (utf8Encode new_content).length,
                 content_type := detectContentType new_content }
      else r).get ⟨i, by simpa using hi⟩) =
      (fun r =>
        if r.id = entry_id then
          { r with content := new_content, content_hash := md5HexOf new_content,
                   preview := createPreview new_content 50,
                   size_bytes := (utf8Encode new_content).length,
                   content_type := detectContentType new_content }
        else r) (s.rows.get ⟨i, hi⟩) := by
    simp [List.get_eq_getElem, List.getElem_map]
  refine ⟨?_, ?_, ?_, ?_⟩
  · rw [hget]
    dsimp only
    split <;> rfl
  · rw [hget]
    dsimp only
    split <;> rfl
  · intro hne
    rw [hget]
    dsimp only
    rw [if_neg hne]
  · intro heq
    rw [hget]
    dsimp only
    rw [if_pos heq]
    exact ⟨rfl, rfl, rfl, rfl, rfl⟩

/-- Witness for `update_entry_frame`: updating the single row of
`demoA` (content `"a"`, id 1) to `"b"` keeps its id and timestamp. -/
theorem update_entry_frame_witness :
    (update_entry_content 1 ("b".toList) demoA).2.nextId = demoA.nextId ∧
    (update_entry_content 1 ("b".toList) demoA).2.rows.length =
      demoA.rows.length :=
  ⟨(update_entry_frame 1 ("b".toList) demoA (by decide)).1,
   (update_entry_frame 1 ("b".toList) demoA (by decide)).2.1⟩

/-! ### C2 — uniqueness of `content_hash` -/

/-- C2: in every reachable store state no two live entries share a
`content_hash`, and every mutating store operation preserves the store
invariant's uniqueness (update relies on the schema's distinct ids,
which reachable states also satisfy). -/
theorem content_hash_unique_invariant :
    (∀ s : StoreState, Reachable s → HashUnique s) ∧
    (∀ s : StoreState, StoreInv s →
      (∀ now content, HashUnique (add_clipboard_entry now content s).2) ∧
      (∀ entry_id new_content,
        HashUnique (update_entry_content entry_id new_content s).2) ∧
      (∀ entry_id, HashUnique (delete_entry entry_id s).2) ∧
      HashUnique (clear_all_entries s).2) := by
  constructor
  · intro s hs
    exact (storeInv_reachable hs).2.2
  · intro s hs
    exact ⟨fun now content => (storeInv_add now content s hs).2.2,
           fun eid nc => (storeInv_update eid nc s hs).2.2,
           fun eid => (storeInv_delete eid s hs).2.2,
           (storeInv_clear s hs).2.2⟩

/-- Witness for `content_hash_unique_invariant`: hash uniqueness holds
at the concrete reachable two-entry state `demoAB`. -/
theorem content_hash_unique_invariant_witness : HashUnique demoAB :=
  content_hash_unique_invariant.1 demoAB
    (Reachable.add 2 ("b".toList) (Reachable.add 1 ("a".toList) Reachable.init))

/-! ### C1 — `add_clipboard_entry` -/

theorem countP_key_le_one {κ : Type} [DecidableEq κ] (f : Entry → κ) (k : κ) :
    ∀ {l : List Entry}, (l.Pairwise fun a b => f a ≠ f b) →
      l.countP (fun r => f r = k) ≤ 1 := by
  intro l hp
  induction l with
  | nil => simp
  | cons x xs ih =>
    rw [List.pairwise_cons] at hp
    rw [List.countP_cons]
    by_cases hxk : f x = k
    · have hzero : xs.countP (fun r => f r = k) = 0 := by
        rw [List.countP_eq_zero]
        intro b hb
        simp only [decide_eq_true_eq]
        intro hbk
        exact hp.1 b hb (hxk.trans hbk.symm)
      simp [hxk, hzero]
    · have := ih hp.2
      simp only [decide_eq_true_eq, hxk]
      simpa using this

theorem pairwise_key_mem_eq {κ : Type} (f : Entry → κ) :
    ∀ {l : List Entry}, (l.Pairwise fun a b => f a ≠ f b) →
      ∀ {a b : Entry}, a ∈ l → b ∈ l → f a = f b → a = b := by
  intro l hp
  induction l with
  | nil =>
    intro a b ha
    simp at ha
  | cons x xs ih =>
    rw [List.pairwise_cons] at hp
    intro a b ha hb hf
    rcases List.mem_cons.mp ha with rfl | ha2
    · rcases List.mem_cons.mp hb with rfl | hb2
      · rfl
      · exact absurd hf (hp.1 b hb2)
    · rcases List.mem_cons.mp hb with rfl | hb2
      · exact absurd hf.symm (hp.1 a ha2)
      · exact ih hp.2 ha2 hb2 hf

theorem add_countP_one (now : Nat) (content : List Char) (s : StoreState)
    (hinv : StoreInv s) (hws : pyFalsyOrWs content = false) :
    (add_clipboard_entry now content s).2.rows.countP
      (fun r => r.content_hash = md5HexOf content) = 1 ∧
    ∃ r ∈ (add_clipboard_entry now content s).2.rows,
      r.content_hash = md5HexOf content ∧ r.timestamp = now := by
  unfold add_clipboard_entry
  rw [if_neg (by simp [hws])]
  rcases hq : s.rows.find? (fun r => r.content_hash = md5HexOf content)
    with _ | r0
  · simp only [hq]
    have hnone := List.find?_eq_none.mp hq
    constructor
    · rw [List.countP_append, List.countP_eq_zero.mpr ?left]
      · simp
      · intro a ha
        simpa using hnone a ha
    · refine ⟨_, List.mem_append_right _ (List.mem_singleton_self _), rfl, rfl⟩
  · simp only [hq]
    have hmem := List.mem_of_find?_eq_some hq
    have hph : r0.content_hash = md5HexOf content := by
      simpa using List.find?_some hq
    have hcnt : (s.rows.map fun r =>
        if r.id = r0.id then { r with timestamp := now } else r).countP
          (fun r => r.content_hash = md5HexOf content) =
        s.rows.countP (fun r => r.content_hash = md5HexOf content) := by
      rw [List.countP_map]
      apply List.countP_congr
      intro a _
      simp [Function.comp, touch_keeps_hash]
    constructor
    · rw [hcnt]
      have hle := countP_key_le_one Entry.content_hash (md5HexOf content)
        hinv.2.2
      have hpos : 0 < s.rows.countP (fun r => r.content_hash = md5HexOf content) := by
        rw [List.countP_pos_iff]
        exact ⟨r0, hmem, by simp [hph]⟩
      omega
    · refine ⟨{ r0 with timestamp := now }, ?_, by simpa using hph, rfl⟩
      have : (fun r => if r.id = r0.id then { r with timestamp := now } else r) r0 =
          { r0 with timestamp := now } := by
        simp
      rw [← this]
      exact List.mem_map_of_mem _ hmem

/-- C1: `add(content)` returns `False` and leaves the store unchanged on
empty or whitespace-only content; otherwise it returns `True` and either
(dedup path) keeps the row count and ids, refreshing exactly the
timestamp of the live entry carrying the content's MD5 hash while every
other row survives unchanged, or (insert path, no such hash live)
appends a fresh row with the next `AUTOINCREMENT` id and the computed
hash, preview, byte size and content type; consequently adding the same
content twice leaves exactly one live entry with that hash, whose
timestamp is the second call's time. -/
theorem add_clipboard_entry_spec (now now2 : Nat) (content : List Char)
    (s : StoreState) (hinv : StoreInv s) :
    (pyFalsyOrWs content = true →
      add_clipboard_entry now content s = (false, s)) ∧
    (pyFalsyOrWs content = false →
      (add_clipboard_entry now content s).1 = true ∧
      ((∃ r ∈ s.rows, r.content_hash = md5HexOf content) →
        (add_clipboard_entry now content s).2.rows.length = s.rows.length ∧
        (add_clipboard_entry now content s).2.nextId = s.nextId ∧
        (∀ r0 ∈ s.rows, r0.content_hash = md5HexOf content →
          { r0 with timestamp := now } ∈
            (add_clipboard_entry now content s).2.rows) ∧
        (∀ r ∈ s.rows, r.content_hash ≠ md5HexOf content →
          r ∈ (add_clipboard_entry now content s).2.rows)) ∧
      ((∀ r ∈ s.rows, r.content_hash ≠ md5HexOf content) →
        (add_clipboard_entry now content s).2.rows =
          s.rows ++ [{ id := s.nextId, content := content,
                       content_hash := md5HexOf content,
                       preview := createPreview content 50, timestamp := now,
                       size_bytes := (utf8Encode content).length,
                       content_type := detectContentType content }] ∧
        (add_clipboard_entry now content s).2.nextId = s.nextId + 1) ∧
      ((add_clipboard_entry now2 content
          (add_clipboard_entry now content s).2).2.rows.countP
            (fun r => r.content_hash = md5HexOf content) = 1 ∧
        ∃ r ∈ (add_clipboard_entry now2 content
            (add_clipboard_entry now content s).2).2.rows,
          r.content_hash = md5HexOf content ∧ r.timestamp = now2)) := by
  constructor
  · intro hws
    unfold add_clipboard_entry
    rw [if_pos hws]
  · intro hws
    refine ⟨?_, ?_, ?_, ?_⟩
    · unfold add_clipboard_entry
      rw [if_neg (by simp [hws])]
      rcases hq : s.rows.find? (fun r => r.content_hash = md5HexOf content)
        with _ | r0 <;> simp [hq]
    · rintro ⟨rx, hrx, hrxh⟩
      rcases hq : s.rows.find? (fun r => r.content_hash = md5HexOf content)
        with _ | r0
      · exact absurd (by simpa using hrxh)
          (by simpa using List.find?_eq_none.mp hq rx hrx)
      · have hmem0 := List.mem_of_find?_eq_some hq
        have hph : r0.content_hash = md5HexOf content := by
          simpa using List.find?_some hq
        have hshape : (add_clipboard_entry now content s).2 =
            { s with rows := s.rows.map fun r =>
              if r.id = r0.id then { r with timestamp := now } else r } := by
          unfold add_clipboard_entry
          rw [if_neg (by simp [hws])]
          simp only [hq]
        rw [hshape]
        refine ⟨by simp, rfl, ?_, ?_⟩
        · intro r1 hr1 hr1h
          have : r1 = r0 :=
            pairwise_key_mem_eq Entry.content_hash hinv.2.2 hr1 hmem0
              (hr1h.trans hph.symm)
          subst this
          have hf : (fun r =>
              if r.id = r1.id then { r with timestamp := now } else r) r1 =
              { r1 with timestamp := now } := by
            simp
          rw [← hf]
          exact List.mem_map_of_mem _ hr1
        · intro r1 hr1 hr1h
          have hne : r1.id ≠ r0.id := by
            intro hid
            have : r1 = r0 :=
              pairwise_key_mem_eq Entry.id hinv.2.1 hr1 hmem0 hid
            subst this
            exact hr1h hph
          have hf : (fun r =>
              if r.id = r0.id then { r with timestamp := now } else r) r1 =
              r1 := by
            simp [hne]
          rw [← hf]
          exact List.mem_map_of_mem _ hr1
    · intro hnone
      have hq : s.rows.find? (fun r => r.content_hash = md5HexOf content) =
          none := by
        rw [List.find?_eq_none]
        intro a ha
        simpa using hnone a ha
      have hshape : (add_clipboard_entry now content s).2 =
          { rows := s.rows ++
              [{ id := s.nextId, content := content,
                 content_hash := md5HexOf content,
                 preview := createPreview content 50, timestamp := now,
                 size_bytes := (utf8Encode content).length,
                 content_type := detectContentType content }],
            nextId := s.nextId + 1 } := by
        unfold add_clipboard_entry
        rw [if_neg (by simp [hws])]
        simp only [hq]
      rw [hshape]
      exact ⟨rfl, rfl⟩
    · exact add_countP_one now2 content (add_clipboard_entry now content s).2
        (storeInv_add now content s hinv) hws

/-- Witness for `add_clipboard_entry_spec`: on the empty store, adding
`"a"` twice (times 1 then 5) leaves exactly one live entry with the MD5
hash of `"a"`. -/
theorem add_clipboard_entry_spec_witness :
    (add_clipboard_entry 5 ("a".toList)
        (add_clipboard_entry 1 ("a".toList) emptyStore).2).2.rows.countP
      (fun r => r.content_hash = md5HexOf ("a".toList)) = 1 :=
  ((add_clipboard_entry_spec 1 5 ("a".toList) emptyStore storeInv_empty).2
    (by decide)).2.2.2.1

/-! ### C3 — `update_entry_content` and duplicate hashes -/

/-- C3 counterexample: with live entries `"a"` (id 1) and `"b"` (id 2),
`update_content(1, "b")` does not succeed.  The schema declares
`content_hash TEXT UNIQUE`, so the `UPDATE` raises
`sqlite3.IntegrityError`, the `except` clause returns `False`, the
transaction is never committed, and afterwards no two live rows share a
`content_hash` — contradicting the claim that such an update returns
true and leaves a duplicated hash. -/
theorem update_duplicate_counterexample :
    demoAB.rows.map Entry.content = ["a".toList, "b".toList] ∧
    (update_entry_content 1 ("b".toList) demoAB).1 = false ∧
    (update_entry_content 1 ("b".toList) demoAB).2 = demoAB ∧
    HashUnique (update_entry_content 1 ("b".toList) demoAB).2 := by
  exact ⟨by decide, by decide, by decide, by unfold HashUnique; decide⟩

/-- C3 (amended): `update_content` can never create a duplicate
`content_hash`: whenever another live row (different id) already carries
the hash of `new_content`, the operation fails — returns `False` with
the store unchanged, because the `UNIQUE` constraint rejects the
`UPDATE` — and from any state satisfying the schema invariant,
`update_content` preserves hash uniqueness. -/
theorem update_no_duplicate_hash (entry_id : Nat) (new_content : List Char)
    (s : StoreState) (hinv : StoreInv s) :
    HashUnique (update_entry_content entry_id new_content s).2 ∧
    ((∃ r ∈ s.rows, r.id ≠ entry_id ∧
        r.content_hash = md5HexOf new_content) →
      update_entry_content entry_id new_content s = (false, s)) := by
  refine ⟨(storeInv_update entry_id new_content s hinv).2.2, ?_⟩
  rintro ⟨r, hr, hne, hh⟩
  unfold update_entry_content
  by_cases hws : pyFalsyOrWs new_content = true
  · rw [if_pos hws]
  · rw [if_neg hws]
    rcases hq : s.rows.find? (fun r2 => r2.id = entry_id) with _ | r0
    · simp only [hq]
    · have hcond : (s.rows.any fun r2 => r2.id ≠ entry_id &&
          r2.content_hash = md5HexOf new_content) = true := by
        rw [List.any_eq_true]
        exact ⟨r, hr, by simp [hne, hh]⟩
      simp only [hq, hcond]
      simp

/-- Witness for `update_no_duplicate_hash`: the concrete conflicting
update on `demoAB` fails and changes nothing. -/
theorem update_no_duplicate_hash_witness :
    update_entry_content 1 ("b".toList) demoAB = (false, demoAB) :=
  (update_no_duplicate_hash 1 ("b".toList) demoAB
    ⟨by decide, by decide, by unfold HashUnique; decide⟩).2 (by decide)

/-- Dichotomy: `update_entry_content` either fails leaving the state unchanged or
succeeds. -/
theorem update_cases (e : Nat) (n : List Char) (s : StoreState) :
    update_entry_content e n s = (false, s) ∨
    (update_entry_content e n s).1 = true := by
  unfold update_entry_content
  by_cases hws : pyFalsyOrWs n = true
  · left
    rw [if_pos hws]
  · rw [if_neg hws]
    rcases hq : s.rows.find? (fun r => r.id = e) with _ | r0
    · left
      simp [hq]
    · by_cases hc : (s.rows.any fun r => r.id ≠ e &&
          r.content_hash = md5HexOf n) = true
      · left
        simp only [hq]
        rw [if_pos hc]
      · right
        simp only [hq]
        rw [if_neg hc]

/-! ### C8 — failure semantics of the store operations -/

/-- C8: for every store operation, an injected backing-store failure at
any of the operation's database calls (`k` below the call count of the
op) is caught: the operation returns its failure signal — `False`, the
empty list, `none`, `0` — and the committed store state is unchanged
(the state argument is returned untouched; uncommitted work is rolled
back).  With no failure injected (`failAt = none`), each `_io` variant
agrees with the pure operation. -/
theorem store_io_failure_spec :
    (∀ (k now : Nat) (content : List Char) (s : StoreState), k < 4 →
      add_clipboard_entry_io (some k) now content s = (false, s)) ∧
    (∀ (now : Nat) (content : List Char) (s : StoreState),
      add_clipboard_entry_io none now content s =
        add_clipboard_entry now content s) ∧
    (∀ (k entry_id : Nat) (nc : List Char) (s : StoreState), k < 4 →
      update_entry_content_io (some k) entry_id nc s = (false, s)) ∧
    (∀ (entry_id : Nat) (nc : List Char) (s : StoreState),
      update_entry_content_io none entry_id nc s =
        update_entry_content entry_id nc s) ∧
    (∀ (k entry_id : Nat) (s : StoreState), k < 3 →
      delete_entry_io (some k) entry_id s = (false, s)) ∧
    (∀ (entry_id : Nat) (s : StoreState),
      delete_entry_io none entry_id s = delete_entry entry_id s) ∧
    (∀ (k : Nat) (s : StoreState), k < 3 →
      clear_all_entries_io (some k) s = (false, s)) ∧
    (∀ s : StoreState, clear_all_entries_io none s = clear_all_entries s) ∧
    (∀ (k limit : Nat) (s : StoreState), k < 2 →
      get_all_entries_io (some k) limit s = []) ∧
    (∀ (limit : Nat) (s : StoreState),
      get_all_entries_io none limit s = get_all_entries limit s) ∧
    (∀ (k : Nat) (q : List Char) (limit : Nat) (s : StoreState), k < 2 →
      search_entries_io (some k) q limit s = []) ∧
    (∀ (q : List Char) (limit : Nat) (s : StoreState),
      search_entries_io none q limit s = search_entries q limit s) ∧
    (∀ (k entry_id : Nat) (s : StoreState), k < 2 →
      get_entry_by_id_io (some k) entry_id s = none) ∧
    (∀ (entry_id : Nat) (s : StoreState),
      get_entry_by_id_io none entry_id s = get_entry_by_id entry_id s) ∧
    (∀ (k : Nat) (s : StoreState), k < 2 →
      get_total_entries_io (some k) s = 0) ∧
    (∀ s : StoreState, get_total_entries_io none s = get_total_entries s) ∧
    (∀ (k : Nat) (s : StoreState), k < 2 →
      get_storage_size_mb_io (some k) s = 0) ∧
    (∀ s : StoreState, get_storage_size_mb_io none s = get_storage_size_mb s) := by
  refine ⟨?_, ?_, ?_, ?_, ?_, ?_, ?_, ?_, ?_, ?_, ?_, ?_, ?_, ?_, ?_, ?_, ?_, ?_⟩
  · intro k now content s hk
    interval_cases k <;> (unfold add_clipboard_entry_io; split <;> simp)
  · intro now content s
    unfold add_clipboard_entry_io add_clipboard_entry
    by_cases hws : pyFalsyOrWs content = true
    · simp [hws]
    · simp only [if_neg hws]
      rcases hq : s.rows.find?
        (fun r => r.content_hash = md5HexOf content) with _ | r0 <;>
        simp [hq]
  · intro k entry_id nc s hk
    interval_cases k <;>
      · unfold update_entry_content_io
        split
        · rfl
        · (try simp) <;> (split <;> rfl)
  · intro entry_id nc s
    unfold update_entry_content_io
    by_cases hws : pyFalsyOrWs nc = true
    · rw [if_pos hws]
      unfold update_entry_content
      rw [if_pos hws]
    · rw [if_neg hws]
      rcases hq : s.rows.find? (fun r => r.id = entry_id) with _ | r0
      · simp only [hq]
        unfold update_entry_content
        rw [if_neg hws]
        simp only [hq]
        simp
      · simp only [hq]
        have halt := update_cases entry_id nc s
        rcases hp : update_entry_content entry_id nc s with ⟨b, s2⟩
        rw [hp] at halt
        rcases halt with hfs | ht
        · rw [Prod.mk.injEq] at hfs
          obtain ⟨hb, hs2⟩ := hfs
          subst hb
          subst hs2
          simp
        · simp only at ht
          subst ht
          simp
  · intro k entry_id s hk
    interval_cases k <;> simp [delete_entry_io]
  · intro entry_id s
    simp [delete_entry_io]
  · intro k s hk
    interval_cases k <;> simp [clear_all_entries_io]
  · intro s
    simp [clear_all_entries_io]
  · intro k limit s hk
    interval_cases k <;> simp [get_all_entries_io]
  · intro limit s
    simp [get_all_entries_io]
  · intro k q limit s hk
    interval_cases k <;>
      · unfold search_entries_io get_all_entries_io
        split <;> simp
  · intro q limit s
    unfold search_entries_io get_all_entries_io search_entries
    split <;> simp
  · intro k entry_id s hk
    interval_cases k <;> simp [get_entry_by_id_io]
  · intro entry_id s
    simp [get_entry_by_id_io]
  · intro k s hk
    interval_cases k <;> simp [get_total_entries_io]
  · intro s
    simp [get_total_entries_io]
  · intro k s hk
    interval_cases k <;> simp [get_storage_size_mb_io]
  · intro s
    simp [get_storage_size_mb_io]

/-- Witness for `store_io_failure_spec`: concrete injected failures on
concrete stores return the failure signal with the store unchanged. -/
theorem store_io_failure_spec_witness :
    add_clipboard_entry_io (some 0) 3 ("c".toList) demoA = (false, demoA) ∧
    update_entry_content_io (some 2) 1 ("c".toList) demoA = (false, demoA) ∧
    delete_entry_io (some 1) 1 demoA = (false, demoA) ∧
    clear_all_entries_io (some 2) demoA = (false, demoA) ∧
    get_all_entries_io (some 1) 1000 demoA = [] ∧
    search_entries_io (some 0) ("a".toList) 100 demoA = [] ∧
    get_entry_by_id_io (some 1) 1 demoA = none ∧
    get_total_entries_io (some 0) demoA = 0 ∧
    get_storage_size_mb_io (some 1) demoA = 0 :=
  ⟨store_io_failure_spec.1 0 3 ("c".toList) demoA (by decide),
   store_io_failure_spec.2.2.1 2 1 ("c".toList) demoA (by decide),
   store_io_failure_spec.2.2.2.2.1 1 1 demoA (by decide),
   store_io_failure_spec.2.2.2.2.2.2.1 2 demoA (by decide),
   store_io_failure_spec.2.2.2.2.2.2.2.2.1 1 1000 demoA (by decide),
   store_io_failure_spec.2.2.2.2.2.2.2.2.2.2.1 0 ("a".toList) 100 demoA
     (by decide),
   store_io_failure_spec.2.2.2.2.2.2.2.2.2.2.2.2.1 1 1 demoA (by decide),
   store_io_failure_spec.2.2.2.2.2.2.2.2.2.2.2.2.2.2.1 0 demoA (by decide),
   store_io_failure_spec.2.2.2.2.2.2.2.2.2.2.2.2.2.2.2.2.1 1 demoA
     (by decide)⟩

/-! ### C4 — `search_entries` -/

theorem likeMatchGo_step_percent_nil (fuel : Nat) (ps : List Char) :
    likeMatchGo (fuel + 1) ('%' :: ps) [] = likeMatchGo fuel ps [] := by
  simp only [likeMatchGo]
  simp

theorem likeMatchGo_step_percent_cons (fuel : Nat) (ps : List Char)
    (c : Char) (ts : List Char) :
    likeMatchGo (fuel + 1) ('%' :: ps) (c :: ts) =
      (likeMatchGo fuel ps (c :: ts) || likeMatchGo fuel ('%' :: ps) ts) := by
  simp only [likeMatchGo]
  simp

theorem likeMatchGo_step_plain_nil (fuel : Nat) (p : Char) (ps : List Char)
    (hp : p ≠ '%') :
    likeMatchGo (fuel + 1) (p :: ps) [] = false := by
  simp only [likeMatchGo]
  rw [if_neg hp]

theorem likeMatchGo_step_us (fuel : Nat) (ps : List Char) (c : Char)
    (ts : List Char) :
    likeMatchGo (fuel + 1) ('_' :: ps) (c :: ts) = likeMatchGo fuel ps ts := by
  simp only [likeMatchGo]
  simp

theorem likeMatchGo_step_plain_cons (fuel : Nat) (p c : Char)
    (ps ts : List Char) (hp1 : p ≠ '%') (hp2 : p ≠ '_') :
    likeMatchGo (fuel + 1) (p :: ps) (c :: ts) =
      ((asciiLower p = asciiLower c) && likeMatchGo fuel ps ts) := by
  simp only [likeMatchGo]
  rw [if_neg hp1, if_neg hp2]

theorem likeMatchGo_fuel : ∀ (f1 f2 : Nat) (ps t : List Char),
    ps.length + t.length < f1 → ps.length + t.length < f2 →
    likeMatchGo f1 ps t = likeMatchGo f2 ps t := by
  intro f1
  induction f1 with
  | zero =>
    intro f2 ps t h1 _
    omega
  | succ f ih =>
    intro f2 ps t h1 h2
    cases f2 with
    | zero => omega
    | succ g =>
      cases ps with
      | nil => rfl
      | cons p ps1 =>
        simp only [List.length_cons] at h1 h2
        by_cases hp : p = '%'
        · subst hp
          cases t with
          | nil =>
            rw [likeMatchGo_step_percent_nil, likeMatchGo_step_percent_nil]
            exact ih g ps1 [] (by simp at h1 ⊢; omega) (by simp at h2 ⊢; omega)
          | cons c ts =>
            simp only [List.length_cons] at h1 h2
            rw [likeMatchGo_step_percent_cons, likeMatchGo_step_percent_cons]
            rw [ih g ps1 (c :: ts) (by simp; omega) (by simp; omega),
              ih g ('%' :: ps1) ts (by simp; omega) (by simp; omega)]
        · cases t with
          | nil =>
            rw [likeMatchGo_step_plain_nil f p ps1 hp,
              likeMatchGo_step_plain_nil g p ps1 hp]
          | cons c ts =>
            simp only [List.length_cons] at h1 h2
            by_cases hp2 : p = '_'
            · subst hp2
              rw [likeMatchGo_step_us, likeMatchGo_step_us]
              exact ih g ps1 ts (by omega) (by omega)
            · rw [likeMatchGo_step_plain_cons f p c ps1 ts hp hp2,
                likeMatchGo_step_plain_cons g p c ps1 ts hp hp2]
              rw [ih g ps1 ts (by omega) (by omega)]

theorem likeMatchGo_eq (fuel : Nat) (ps t : List Char)
    (h : ps.length + t.length < fuel) :
    likeMatchGo fuel ps t = likeMatch ps t :=
  likeMatchGo_fuel fuel (ps.length + t.length + 1) ps t h (by omega)

theorem likeMatch_percent (ps : List Char) (t : List Char) :
    likeMatch ('%' :: ps) t =
      (likeMatch ps t ||
        match t with
        | [] => false
        | _ :: ts => likeMatch ('%' :: ps) ts) := by
  cases t with
  | nil =>
    rw [show likeMatch ('%' :: ps) [] =
      likeMatchGo ((('%' :: ps).length + ([] : List Char).length) + 1)
        ('%' :: ps) [] from rfl]
    rw [likeMatchGo_step_percent_nil]
    rw [likeMatchGo_eq (('%' :: ps).length + ([] : List Char).length) ps []
      (by simp)]
    simp
  | cons c ts =>
    rw [show likeMatch ('%' :: ps) (c :: ts) =
      likeMatchGo ((('%' :: ps).length + (c :: ts).length) + 1)
        ('%' :: ps) (c :: ts) from rfl]
    rw [likeMatchGo_step_percent_cons]
    rw [likeMatchGo_eq (('%' :: ps).length + (c :: ts).length) ps (c :: ts)
      (by simp)]
    rw [likeMatchGo_eq (('%' :: ps).length + (c :: ts).length) ('%' :: ps) ts
      (by simp)]

theorem likeMatch_plain_nil (p : Char) (ps : List Char) (hp : p ≠ '%') :
    likeMatch (p :: ps) [] = false := by
  rw [show likeMatch (p :: ps) [] =
    likeMatchGo (((p :: ps).length + ([] : List Char).length) + 1)
      (p :: ps) [] from rfl]
  rw [likeMatchGo_step_plain_nil _ _ _ hp]

theorem likeMatch_plain_cons (p c : Char) (ps ts : List Char)
    (hp1 : p ≠ '%') (hp2 : p ≠ '_') :
    likeMatch (p :: ps) (c :: ts) =
      ((asciiLower p = asciiLower c) && likeMatch ps ts) := by
  rw [show likeMatch (p :: ps) (c :: ts) =
    likeMatchGo (((p :: ps).length + (c :: ts).length) + 1)
      (p :: ps) (c :: ts) from rfl]
  rw [likeMatchGo_step_plain_cons _ _ _ _ _ hp1 hp2]
  rw [likeMatchGo_eq ((p :: ps).length + (c :: ts).length) ps ts
    (by simp; omega)]

theorem likeMatch_percent_any (t : List Char) : likeMatch ['%'] t = true := by
  induction t with
  | nil => rfl
  | cons c ts ih =>
    rw [likeMatch_percent]
    simp only [Bool.or_eq_true]
    exact Or.inr ih

theorem likeMatch_percent_iff (ps : List Char) : ∀ t : List Char,
    likeMatch ('%' :: ps) t = true ↔
      ∃ t1 t2, t = t1 ++ t2 ∧ likeMatch ps t2 = true := by
  intro t
  induction t with
  | nil =>
    rw [likeMatch_percent]
    simp only [Bool.or_eq_true]
    constructor
    · rintro (h | h)
      · exact ⟨[], [], rfl, h⟩
      · exact absurd h (by simp)
    · rintro ⟨t1, t2, heq, hm⟩
      obtain ⟨h1, h2⟩ := List.append_eq_nil.mp heq.symm
      subst h2
      exact Or.inl hm
  | cons c ts ih =>
    rw [likeMatch_percent]
    simp only [Bool.or_eq_true]
    constructor
    · rintro (h | h)
      · exact ⟨[], c :: ts, rfl, h⟩
      · obtain ⟨t1, t2, heq, hm⟩ := ih.mp h
        exact ⟨c :: t1, t2, by rw [heq, List.cons_append], hm⟩
    · rintro ⟨t1, t2, heq, hm⟩
      cases t1 with
      | nil =>
        simp only [List.nil_append] at heq
        subst heq
        exact Or.inl hm
      | cons d t1x =>
        rw [List.cons_append] at heq
        injection heq with hd htail
        right
        exact ih.mpr ⟨t1x, t2, htail, hm⟩

theorem noWildcard_head {p : Char} {q : List Char}
    (h : noWildcard (p :: q) = true) :
    p ≠ '%' ∧ p ≠ '_' ∧ noWildcard q = true := by
  rw [noWildcard, List.all_cons] at h
  simp only [Bool.and_eq_true, Bool.not_eq_true', decide_eq_false_iff_not] at h
  exact ⟨h.1.1, h.1.2, h.2⟩

theorem likeMatch_seg_iff : ∀ (q : List Char), noWildcard q = true →
    ∀ t : List Char,
    (likeMatch (q ++ ['%']) t = true ↔
      ∃ t1 t2, t = t1 ++ t2 ∧ t1.map asciiLower = q.map asciiLower) := by
  intro q
  induction q with
  | nil =>
    intro _ t
    simp only [List.nil_append]
    rw [likeMatch_percent_any]
    constructor
    · intro _
      exact ⟨[], t, rfl, rfl⟩
    · intro _
      rfl
  | cons p q1 ih =>
    intro hq t
    obtain ⟨hp1, hp2, hq1⟩ := noWildcard_head hq
    cases t with
    | nil =>
      rw [List.cons_append, likeMatch_plain_nil p (q1 ++ ['%']) hp1]
      simp only [Bool.false_eq_true, false_iff]
      rintro ⟨t1, t2, heq, hmap⟩
      obtain ⟨h1, _⟩ := List.append_eq_nil.mp heq.symm
      subst h1
      exact absurd hmap (by simp)
    | cons c ts =>
      rw [List.cons_append, likeMatch_plain_cons p c (q1 ++ ['%']) ts hp1 hp2]
      simp only [Bool.and_eq_true, decide_eq_true_eq]
      rw [ih hq1 ts]
      constructor
      · rintro ⟨hlow, t1, t2, heq, hmap⟩
        exact ⟨c :: t1, t2, by rw [heq, List.cons_append],
          by simp [hmap, hlow.symm]⟩
      · rintro ⟨t1, t2, heq, hmap⟩
        cases t1 with
        | nil => simp at hmap
        | cons d t1x =>
          rw [List.cons_append] at heq
          injection heq with hd htail
          subst hd
          simp only [List.map_cons, List.cons.injEq] at hmap
          exact ⟨hmap.1.symm, t1x, t2, htail, hmap.2⟩

theorem containsSub_iff (q : List Char) : ∀ t : List Char,
    (containsSub q t = true ↔ ∃ a b, a ++ q ++ b = t) := by
  intro t
  induction t with
  | nil =>
    show (q.isEmpty = true ↔ _)
    rw [List.isEmpty_iff]
    constructor
    · intro h
      subst h
      exact ⟨[], [], rfl⟩
    · rintro ⟨a, b, hab⟩
      rcases List.append_eq_nil.mp hab with ⟨h1, h2⟩
      exact (List.append_eq_nil.mp h1).2
  | cons c ts ih =>
    show (q.isPrefixOf (c :: ts) || containsSub q ts) = true ↔ _
    simp only [Bool.or_eq_true]
    rw [ih]
    constructor
    · rintro (h | ⟨a, b, hab⟩)
      · obtain ⟨b, hb⟩ := isPrefixOf_iff.mp h
        exact ⟨[], b, by simpa using hb⟩
      · exact ⟨c :: a, b, by rw [← hab]; simp⟩
    · rintro ⟨a, b, hab⟩
      cases a with
      | nil =>
        left
        rw [isPrefixOf_iff]
        exact ⟨b, by simpa using hab⟩
      | cons d ax =>
        right
        rw [List.cons_append, List.cons_append] at hab
        injection hab with hd htail
        exact ⟨ax, b, htail⟩

theorem likeMatch_pattern_contains (q : List Char) (hq : noWildcard q = true)
    (t : List Char) :
    likeMatch ('%' :: (q ++ ['%'])) t =
      containsSub (q.map asciiLower) (t.map asciiLower) := by
  rw [Bool.eq_iff_iff, likeMatch_percent_iff, containsSub_iff]
  constructor
  · rintro ⟨t1, t2, heq, hm⟩
    obtain ⟨u, v, huv, hmap⟩ := (likeMatch_seg_iff q hq t2).mp hm
    subst heq
    subst huv
    refine ⟨t1.map asciiLower, v.map asciiLower, ?_⟩
    simp only [List.map_append, ← hmap, List.append_assoc]
  · rintro ⟨a, b, hab⟩
    obtain ⟨t1, t2, ht, hmt1, hmt2⟩ := List.map_eq_append_iff.mp hab.symm
    obtain ⟨u, v, huv, hmu, hmv⟩ := List.map_eq_append_iff.mp hmt1
    refine ⟨u, v ++ t2, ?_,
      (likeMatch_seg_iff q hq (v ++ t2)).mpr ⟨v, t2, rfl, hmv⟩⟩
    rw [ht, huv, List.append_assoc]

/-- C4 counterexample: SQLite's default `LIKE` is ASCII-case-insensitive,
so `search("HELLO")` on a store holding only `"hello"` returns that
entry, while the claim's case-preserving substring filter
(`specSearchMatch`) predicts the empty result: the returned entry
contains `"HELLO"` in neither `content` nor `preview`. -/
theorem search_case_insensitive_counterexample :
    search_entries ("HELLO".toList) 100 demoHello ≠
      ((sortTsDesc demoHello.rows).filter
        (specSearchMatch ("HELLO".toList))).take 100 ∧
    (∃ r ∈ search_entries ("HELLO".toList) 100 demoHello,
      specSearchMatch ("HELLO".toList) r = false) := by
  exact ⟨by decide, by decide⟩

/-- C4 (amended): an empty or whitespace-only query returns exactly
`get_all(limit)`; otherwise (for queries without the SQL wildcards `%`
and `_`) `search` returns exactly the entries whose `content` or
`preview` contains the query as an ASCII-case-insensitive substring,
ordered newest-timestamp-first and capped at `limit` — a sublist of
`get_all` in the same relative order whenever `get_all`'s limit covers
the store. -/
theorem search_entries_spec (q : List Char) (lim lim2 : Nat)
    (s : StoreState) :
    (pyFalsyOrWs q = true → search_entries q lim s = get_all_entries lim s) ∧
    (pyFalsyOrWs q = false → noWildcard q = true →
      search_entries q lim s =
        ((sortTsDesc s.rows).filter (lowerInfixCond q)).take lim) ∧
    (s.rows.length ≤ lim2 →
      List.Sublist (search_entries q lim s) (get_all_entries lim2 s)) := by
  refine ⟨?_, ?_, ?_⟩
  · intro hws
    unfold search_entries
    rw [if_pos hws]
  · intro hws hnw
    unfold search_entries
    rw [if_neg (by simp [hws])]
    congr 1
    apply List.filter_congr
    intro r _
    unfold likeCond lowerInfixCond
    rw [likeMatch_pattern_contains q hnw r.content,
      likeMatch_pattern_contains q hnw r.preview]
  · intro hlen
    have hget : get_all_entries lim2 s = sortTsDesc s.rows := by
      unfold get_all_entries
      apply List.take_of_length_le
      rw [length_sortTsDesc]
      exact hlen
    rw [hget]
    unfold search_entries
    split
    · unfold get_all_entries
      exact List.take_sublist lim _
    · exact (List.take_sublist lim _).trans (List.filter_sublist _)

/-- Witness for `search_entries_spec`: concrete searches on the
one-entry store `demoHello`. -/
theorem search_entries_spec_witness :
    search_entries ("ELL".toList) 100 demoHello =
      ((sortTsDesc demoHello.rows).filter
        (lowerInfixCond ("ELL".toList))).take 100 ∧
    search_entries ([]) 50 demoHello = get_all_entries 50 demoHello ∧
    List.Sublist (search_entries ("ELL".toList) 100 demoHello)
      (get_all_entries 1000 demoHello) :=
  ⟨(search_entries_spec ("ELL".toList) 100 1000 demoHello).2.1
      (by decide) (by decide),
   (search_entries_spec ([]) 50 1000 demoHello).1 (by decide),
   (search_entries_spec ("ELL".toList) 100 1000 demoHello).2.2 (by decide)⟩
